import Mathlib

/-!
Shallow embedding of the in-memory two-lane priority queue service
(`src/services/queue`): the queue core (`priority_queue.cpp`) and the
HTTP handler surface (`main.cpp`), together with theorems settling the
specification claims about them.

Modelling conventions:
* `std::deque<Job>` lanes become `List Job` (front of list = head of deque).
* The `std::unordered_map<std::string, Job>` inflight table becomes an
  association list `List (String × Job)`; `emplace` inserts only when the
  key is absent, `erase` removes the entry with the key, exactly as the
  C++ container behaves.  Iteration order of the map is unspecified in
  C++; only sizes and key membership are used by the claims.
* The mutex/condition variable make each operation atomic; each C++
  method becomes a pure state-transformer.
-/

/-- The C++ `struct Job` from `include/job.hpp`. -/
structure Job where
  id : String
  agent : String
  model : String
  priority : String
  payload : String
deriving Repr, DecidableEq

/-- The C++ `struct PeekInfo` from `include/priority_queue.hpp`. -/
structure PeekInfo where
  job : Job
  lane : String
  position : Nat
deriving Repr, DecidableEq

/-- The C++ `struct QueueSnapshot` from `include/priority_queue.hpp`. -/
structure QueueSnapshot where
  high : List Job
  low : List Job
  inflight : List Job
deriving Repr, DecidableEq

/-- The state of `class InMemoryPriorityQueue`: the two lanes `high_`,
`low_` and the inflight table `inflight_`. -/
structure InMemoryPriorityQueue where
  high : List Job
  low : List Job
  inflight : List (String × Job)
deriving Repr, DecidableEq

namespace InMemoryPriorityQueue

/-- Embeds `inflight_.emplace(j.id, j)`: `std::unordered_map::emplace` inserts the
pair only when the key is not already present. -/
def emplace (id : String) (j : Job) (m : List (String × Job)) :
    List (String × Job) :=
  if m.any (fun kv => kv.1 == id) then m else m ++ [(id, j)]

/-- Embeds `InMemoryPriorityQueue::enqueue` (priority_queue.cpp lines 5-14). -/
def enqueue (s : InMemoryPriorityQueue) (job : Job) : InMemoryPriorityQueue :=
  if job.priority == "high" then { s with high := s.high ++ [job] }
  else { s with low := s.low ++ [job] }

/-- The `pop_from` lambda inside `dequeue_for_agent` (lines 19-29): scan a
lane from the head, remove and return the first job whose `agent` matches;
the second component is the lane with that job erased. -/
def popFrom (agent : String) : List Job → Option (Job × List Job)
  | [] => none
  | j :: rest =>
    if j.agent == agent then some (j, rest)
    else
      match popFrom agent rest with
      | some (x, rest2) => some (x, j :: rest2)
      | none => none

/-- Embeds `InMemoryPriorityQueue::dequeue_for_agent` (lines 16-34). -/
def dequeue_for_agent (s : InMemoryPriorityQueue) (agent : String) :
    Option Job × InMemoryPriorityQueue :=
  match popFrom agent s.high with
  | some (j, h2) =>
    (some j, { s with high := h2, inflight := emplace j.id j s.inflight })
  | none =>
    match popFrom agent s.low with
    | some (j, l2) =>
      (some j, { s with low := l2, inflight := emplace j.id j s.inflight })
    | none => (none, s)

/-- Embeds `InMemoryPriorityQueue::complete` (lines 36-40): erase the key from the
inflight map; `ok` and `result_or_error` are accepted and ignored. -/
def complete (s : InMemoryPriorityQueue) (id : String) (_ok : Bool)
    (_result_or_error : String) : InMemoryPriorityQueue :=
  { s with inflight := s.inflight.filter (fun kv => ! (kv.1 == id)) }

/-- Embeds `InMemoryPriorityQueue::snapshot` (lines 42-52). -/
def snapshot (s : InMemoryPriorityQueue) : QueueSnapshot :=
  { high := s.high, low := s.low, inflight := s.inflight.map (fun kv => kv.2) }

/-- Embeds `InMemoryPriorityQueue::cancel_queued_for_agent` (lines 54-65):
remove every matching job from both lanes, returning the number removed. -/
def cancel_queued_for_agent (s : InMemoryPriorityQueue) (agent : String) :
    Nat × InMemoryPriorityQueue :=
  let h2 := s.high.filter (fun j => ! (j.agent == agent))
  let l2 := s.low.filter (fun j => ! (j.agent == agent))
  ((s.high.length - h2.length) + (s.low.length - l2.length),
    { s with high := h2, low := l2 })

/-- The indexed scan loops of `peek_for_agent` (lines 69-78). -/
def peekScan (agent : String) : List Job → Nat → Option (Job × Nat)
  | [], _ => none
  | j :: rest, i =>
    if j.agent == agent then some (j, i) else peekScan agent rest (i + 1)

/-- Embeds `InMemoryPriorityQueue::peek_for_agent` (lines 67-80). -/
def peek_for_agent (s : InMemoryPriorityQueue) (agent : String) :
    Option PeekInfo :=
  match peekScan agent s.high 0 with
  | some (j, i) => some { job := j, lane := "high", position := i }
  | none =>
    match peekScan agent s.low 0 with
    | some (j, i) => some { job := j, lane := "low", position := i }
    | none => none

/-- Embeds `InMemoryPriorityQueue::skip_next_for_agent` (lines 82-101): erase the
first matching job from its lane and push it to the back of the same lane. -/
def skip_next_for_agent (s : InMemoryPriorityQueue) (agent : String) :
    Bool × InMemoryPriorityQueue :=
  match popFrom agent s.high with
  | some (j, h2) => (true, { s with high := h2 ++ [j] })
  | none =>
    match popFrom agent s.low with
    | some (j, l2) => (true, { s with low := l2 ++ [j] })
    | none => (false, s)

/-- Embeds `InMemoryPriorityQueue::bring_forward_for_agent` (lines 103-122): erase
the first matching job and push it to the front of the `high` lane
(promoting across lanes when it was found in `low`). -/
def bring_forward_for_agent (s : InMemoryPriorityQueue) (agent : String) :
    Bool × InMemoryPriorityQueue :=
  match popFrom agent s.high with
  | some (j, h2) => (true, { s with high := j :: h2 })
  | none =>
    match popFrom agent s.low with
    | some (j, l2) => (true, { s with high := j :: s.high, low := l2 })
    | none => (false, s)

end InMemoryPriorityQueue

/-! ## HTTP surface (`main.cpp`)

The handler dispatches on method+path, reads the `agent` query parameter,
consults the pause registry `g_paused_agents` on the dispatch path, and
calls the queue core.  Requests arrive pre-routed as a `Request` value;
JSON response bodies are modelled as flat association lists of primitive
values (the `payload` field is carried as its raw string; no claim
depends on nested response structure).  The `/stats` and `/control/state`
response bodies are abstracted to their size metrics / count, since no
claim mentions them and the state is returned unchanged either way. -/

/-- A primitive JSON value appearing in a modelled response body. -/
inductive JVal where
  | jbool : Bool → JVal
  | jnat : Nat → JVal
  | jstr : String → JVal
deriving Repr, DecidableEq

/-- An HTTP response: status code plus modelled JSON body. -/
structure Response where
  status : Nat
  body : List (String × JVal)
deriving Repr, DecidableEq

/-- The parsed body of a `POST /enqueue` request: `agent` and `model` are
required (`j.at(...)` throws otherwise, a malformed request outside this
model); `id`, `priority`, `payload` are optional (`j.value(...)`). -/
structure EnqueueReq where
  id : Option String
  agent : String
  model : String
  priority : Option String
  payload : String
deriving Repr, DecidableEq

/-- The body of a `POST /complete/{id}` request: whether it parses as JSON
at all (`json::parse` throws on garbage, giving a 400), and its optional
`status` and `error` fields. -/
structure CompleteReq where
  parses : Bool
  status : Option String
  err : Option String
deriving Repr, DecidableEq

/-- Whole-process state: the queue `g_queue` and pause registry
`g_paused_agents` (an `unordered_set`, modelled as a duplicate-free list:
insert is a no-op on members, erase removes the member). -/
structure ServerState where
  queue : InMemoryPriorityQueue
  paused : List String
deriving Repr, DecidableEq

/-- Embeds `g_paused_agents.insert(a)`. -/
def pausedInsert (a : String) (l : List String) : List String :=
  if l.contains a then l else l ++ [a]

/-- Embeds `g_paused_agents.erase(a)`. -/
def pausedErase (a : String) (l : List String) : List String :=
  l.filter (fun x => ! (x == a))

/-- One routed HTTP request.  `enqueue` carries the freshly minted id the
surface would use when the body omits `id` (`gen_id()` is random; its
value is a parameter here).  `complete` carries the full URL path, as the
handler itself extracts the id suffix. -/
inductive Request where
  | enqueue (req : EnqueueReq) (fresh : String)
  | dequeue (agent : Option String)
  | stats
  | pause (agent : Option String)
  | resume (agent : Option String)
  | controlState
  | cancelJobs (agent : Option String)
  | complete (path : String) (body : CompleteReq)
  | peek (agent : Option String)
  | skipNext (agent : Option String)
  | bringForward (agent : Option String)
  | stop (agent : Option String)
deriving Repr, DecidableEq

/-- The handler's treatment of the `agent` query parameter: missing or
empty both yield the 400 branch. -/
def agentParam : Option String → Option String
  | none => none
  | some a => if a = "" then none else some a

/-- The `400 {"error": "agent query parameter required"}` response. -/
def agentRequired : Response :=
  { status := 400, body := [("error", JVal.jstr "agent query parameter required")] }

/-- Response body of a successful dequeue: the job's fields. -/
def jobBody (j : Job) : List (String × JVal) :=
  [("id", JVal.jstr j.id), ("agent", JVal.jstr j.agent),
   ("model", JVal.jstr j.model), ("priority", JVal.jstr j.priority),
   ("payload", JVal.jstr j.payload)]

/-- The `handler` function of `main.cpp` (lines 53-246), one routed
request at a time. -/
def handle (r : Request) (st : ServerState) : Response × ServerState :=
  match r with
  | .enqueue req fresh =>
    let job : Job :=
      { id := req.id.getD fresh, agent := req.agent, model := req.model,
        priority := req.priority.getD "low", payload := req.payload }
    ({ status := 200, body := [("id", JVal.jstr job.id)] },
      { st with queue := st.queue.enqueue job })
  | .dequeue a =>
    match agentParam a with
    | none => (agentRequired, st)
    | some ag =>
      if st.paused.contains ag then ({ status := 204, body := [] }, st)
      else
        match st.queue.dequeue_for_agent ag with
        | (none, q2) => ({ status := 204, body := [] }, { st with queue := q2 })
        | (some j, q2) => ({ status := 200, body := jobBody j }, { st with queue := q2 })
  | .stats =>
    let s := st.queue.snapshot
    ({ status := 200,
       body := [("queued_high", JVal.jnat s.high.length),
                ("queued_low", JVal.jnat s.low.length),
                ("inflight", JVal.jnat s.inflight.length)] }, st)
  | .pause a =>
    match agentParam a with
    | none => (agentRequired, st)
    | some ag =>
      ({ status := 200, body := [("ok", JVal.jbool true)] },
        { st with paused := pausedInsert ag st.paused })
  | .resume a =>
    match agentParam a with
    | none => (agentRequired, st)
    | some ag =>
      ({ status := 200, body := [("ok", JVal.jbool true)] },
        { st with paused := pausedErase ag st.paused })
  | .controlState =>
    ({ status := 200, body := [("paused_count", JVal.jnat st.paused.length)] }, st)
  | .cancelJobs a =>
    match agentParam a with
    | none => (agentRequired, st)
    | some ag =>
      let (removed, q2) := st.queue.cancel_queued_for_agent ag
      ({ status := 200, body := [("removed", JVal.jnat removed)] },
        { st with queue := q2 })
  | .complete path bd =>
    if path.take "/complete/".length == "/complete/" then
      let id := path.drop "/complete/".length
      if id = "" then
        ({ status := 400, body := [("error", JVal.jstr "id required")] }, st)
      else if bd.parses then
        let ok := (bd.status.getD "ok") == "ok"
        ({ status := 200, body := [("ok", JVal.jbool true)] },
          { st with queue := st.queue.complete id ok (bd.err.getD "") })
      else
        ({ status := 400, body := [("error", JVal.jstr "json parse error")] }, st)
    else ({ status := 404, body := [("error", JVal.jstr "not found")] }, st)
  | .peek a =>
    match agentParam a with
    | none => (agentRequired, st)
    | some ag =>
      match st.queue.peek_for_agent ag with
      | none => ({ status := 204, body := [] }, st)
      | some p =>
        ({ status := 200,
           body := jobBody p.job ++
             [("lane", JVal.jstr p.lane), ("position", JVal.jnat p.position)] }, st)
  | .skipNext a =>
    match agentParam a with
    | none => (agentRequired, st)
    | some ag =>
      let (moved, q2) := st.queue.skip_next_for_agent ag
      ({ status := 200, body := [("ok", JVal.jbool moved)] },
        { st with queue := q2 })
  | .bringForward a =>
    match agentParam a with
    | none => (agentRequired, st)
    | some ag =>
      let (moved, q2) := st.queue.bring_forward_for_agent ag
      ({ status := 200, body := [("ok", JVal.jbool moved)] },
        { st with queue := q2 })
  | .stop a =>
    match agentParam a with
    | none => (agentRequired, st)
    | some ag =>
      let p2 := pausedInsert ag st.paused
      let (removed, q2) := st.queue.cancel_queued_for_agent ag
      ({ status := 200,
         body := [("ok", JVal.jbool true), ("paused", JVal.jbool true),
                  ("removed", JVal.jnat removed)] },
        { queue := q2, paused := p2 })

/-- Run a sequence of requests, threading the server state. -/
def run : List Request → ServerState → ServerState
  | [], st => st
  | r :: rs, st => run rs (handle r st).2

/-- The empty initial server state of a fresh process. -/
def initState : ServerState :=
  { queue := { high := [], low := [], inflight := [] }, paused := [] }

/-- The request kinds that the spec says a paused agent must not be
blocked on: enqueue, completion, cancellation, inspection (peek) and the
two reorder controls.  (`GET /dequeue` is the only pause-gated path.) -/
def pausedBlind : Request → Prop
  | .enqueue _ _ => True
  | .complete _ _ => True
  | .cancelJobs _ => True
  | .peek _ => True
  | .skipNext _ => True
  | .bringForward _ => True
  | _ => False

/-! ## Concrete example data

A few fixed jobs used to instantiate universally quantified theorems at
concrete inputs. -/

/-- A high-priority job for agent `"a"`. -/
def exJobH : Job :=
  { id := "h1", agent := "a", model := "m", priority := "high", payload := "{}" }

/-- A low-priority job for agent `"a"`. -/
def exJobL : Job :=
  { id := "l1", agent := "a", model := "m", priority := "low", payload := "{}" }

/-- A low-priority job for agent `"b"`. -/
def exJobB : Job :=
  { id := "b1", agent := "b", model := "m", priority := "low", payload := "{}" }

/-! ## Trace-level bookkeeping

Definitions used to state the reachable-state invariants (claims about
"every state reachable by any sequence of operations"): the multiset of
live job ids, operation counters, and the side conditions under which the
spec's invariants actually hold on this code. -/

/-- All job ids live in the structure: ids of the jobs in both lanes plus
the keys of the inflight table. -/
def liveIds (q : InMemoryPriorityQueue) : List String :=
  q.high.map Job.id ++ q.low.map Job.id ++ q.inflight.map Prod.fst

/-- The id-uniqueness invariant: no id occurs twice across (or within)
the high lane, the low lane and the inflight table. -/
def UniqueIds (q : InMemoryPriorityQueue) : Prop :=
  (liveIds q).Nodup

/-- Counters of queue-affecting operations performed so far: enqueues,
dequeues that returned a job, total jobs removed by cancellations
(`DELETE /jobs` and `/control/stop`), and complete calls that reached the
queue core. -/
structure Counts where
  enqueued : Nat
  dequeued : Nat
  cancelled : Nat
  completed : Nat
deriving Repr, DecidableEq

/-- All counters zero. -/
def zeroCounts : Counts := { enqueued := 0, dequeued := 0, cancelled := 0, completed := 0 }

/-- How one handled request updates the operation counters; the branch
conditions mirror `handle` exactly. -/
def countsStep (r : Request) (st : ServerState) (c : Counts) : Counts :=
  match r with
  | .enqueue _ _ => { c with enqueued := c.enqueued + 1 }
  | .dequeue a =>
    match agentParam a with
    | none => c
    | some ag =>
      if st.paused.contains ag then c
      else
        match (st.queue.dequeue_for_agent ag).1 with
        | some _ => { c with dequeued := c.dequeued + 1 }
        | none => c
  | .cancelJobs a =>
    match agentParam a with
    | none => c
    | some ag =>
      { c with cancelled := c.cancelled + (st.queue.cancel_queued_for_agent ag).1 }
  | .complete path bd =>
    if path.take "/complete/".length == "/complete/" then
      if path.drop "/complete/".length = "" then c
      else if bd.parses then { c with completed := c.completed + 1 }
      else c
    else c
  | .stop a =>
    match agentParam a with
    | none => c
    | some ag =>
      { c with cancelled := c.cancelled + (st.queue.cancel_queued_for_agent ag).1 }
  | _ => c

/-- Run a request sequence threading both the server state and the
operation counters. -/
def runC : List Request → ServerState → Counts → ServerState × Counts
  | [], st, c => (st, c)
  | r :: rs, st, c => runC rs (handle r st).2 (countsStep r st c)

/-- One-step condition: if the request is an enqueue, the id it stores is
not live at that moment (what the spec assumes when it calls ids globally
unique). -/
def freshOk (r : Request) (st : ServerState) : Bool :=
  match r with
  | .enqueue req fresh => ! (liveIds st.queue).contains (req.id.getD fresh)
  | _ => true

/-- Trace condition: every enqueue in the sequence stores a fresh id. -/
def freshRun : List Request → ServerState → Bool
  | [], _ => true
  | r :: rs, st => freshOk r st && freshRun rs (handle r st).2

/-- One-step condition: if the request is a complete call that reaches the
queue core, it names an id that is currently in the inflight table. -/
def hitOk (r : Request) (st : ServerState) : Bool :=
  match r with
  | .complete path bd =>
    if path.take "/complete/".length == "/complete/" then
      if path.drop "/complete/".length = "" then true
      else if bd.parses then
        (st.queue.inflight.map Prod.fst).contains (path.drop "/complete/".length)
      else true
    else true
  | _ => true

/-- Trace condition: every complete call in the sequence hits inflight. -/
def hitRun : List Request → ServerState → Bool
  | [], _ => true
  | r :: rs, st => hitOk r st && hitRun rs (handle r st).2

/-- The conservation invariant of the spec, relative to the operation
counters: enqueued = dequeued + cancelled + queued, and
dequeued = completed + inflight. -/
def ConsInv (st : ServerState) (c : Counts) : Prop :=
  c.enqueued = c.dequeued + c.cancelled +
    st.queue.high.length + st.queue.low.length ∧
  c.dequeued = c.completed + st.queue.inflight.length

/-! ## Lane-scan lemmas

`popFrom` is the literal translation of the erase-first-match loops; these
lemmas characterise it in terms of `List.find?`, list decompositions,
permutations and filters, which is what the claims speak about. -/

namespace InMemoryPriorityQueue

theorem popFrom_none_iff (a : String) (l : List Job) :
    popFrom a l = none ↔ ∀ j ∈ l, (j.agent == a) = false := by
  induction l with
  | nil => simp [popFrom]
  | cons x rest ih =>
    by_cases hx : (x.agent == a) = true
    · constructor
      · intro hcontra
        simp [popFrom, hx] at hcontra
      · intro hall
        have hfalse := hall x (List.mem_cons_self x rest)
        rw [hx] at hfalse
        cases hfalse
    · rw [Bool.not_eq_true] at hx
      cases hrec : popFrom a rest with
      | none =>
        simp only [popFrom, hx, Bool.false_eq_true, if_false, hrec]
        simp only [List.mem_cons, true_iff]
        intro j hj
        rcases hj with rfl | hj
        · exact hx
        · exact (ih.mp hrec) j hj
      | some pr =>
        obtain ⟨y, r2⟩ := pr
        constructor
        · intro hcontra
          simp [popFrom, hx, hrec] at hcontra
        · intro hall
          have h2 : popFrom a rest = none :=
            ih.mpr (fun x2 hx2 => hall x2 (List.mem_cons_of_mem _ hx2))
          rw [hrec] at h2
          cases h2

theorem popFrom_some (a : String) : ∀ (l : List Job) (j : Job) (r : List Job),
    popFrom a l = some (j, r) →
    ∃ l1 l2, l = l1 ++ j :: l2 ∧ r = l1 ++ l2 ∧ (j.agent == a) = true ∧
      ∀ x ∈ l1, (x.agent == a) = false := by
  intro l
  induction l with
  | nil => intro j r h; simp [popFrom] at h
  | cons x rest ih =>
    intro j r h
    by_cases hx : (x.agent == a) = true
    · simp only [popFrom, hx, if_true, Option.some.injEq, Prod.mk.injEq] at h
      obtain ⟨rfl, rfl⟩ := h
      exact ⟨[], rest, rfl, rfl, hx, by simp⟩
    · rw [Bool.not_eq_true] at hx
      cases hrec : popFrom a rest with
      | none => simp [popFrom, hx, hrec] at h
      | some pr =>
        obtain ⟨y, r2⟩ := pr
        simp only [popFrom, hx, Bool.false_eq_true, if_false, hrec,
          Option.some.injEq, Prod.mk.injEq] at h
        obtain ⟨rfl, rfl⟩ := h
        obtain ⟨l1, l2, hl, hr2, hag, hnone⟩ := ih y r2 hrec
        refine ⟨x :: l1, l2, by simp [hl], by simp [hr2], hag, ?_⟩
        intro z hz
        rcases List.mem_cons.mp hz with rfl | hz
        · exact hx
        · exact hnone z hz

theorem popFrom_perm {a : String} {l : List Job} {j : Job} {r : List Job}
    (h : popFrom a l = some (j, r)) : l.Perm (j :: r) := by
  obtain ⟨l1, l2, rfl, rfl, -, -⟩ := popFrom_some a l j r h
  exact List.perm_middle

theorem popFrom_agent {a : String} {l : List Job} {j : Job} {r : List Job}
    (h : popFrom a l = some (j, r)) : (j.agent == a) = true := by
  obtain ⟨-, -, -, -, hag, -⟩ := popFrom_some a l j r h
  exact hag

theorem popFrom_fst_eq_find? (a : String) (l : List Job) :
    (popFrom a l).map Prod.fst = l.find? (fun x => x.agent == a) := by
  induction l with
  | nil => simp [popFrom]
  | cons x rest ih =>
    by_cases hx : (x.agent == a) = true
    · simp [popFrom, hx, List.find?_cons_of_pos]
    · rw [Bool.not_eq_true] at hx
      rw [List.find?_cons_of_neg _ (by simp [hx]), ← ih]
      cases hrec : popFrom a rest with
      | none => simp [popFrom, hx, hrec]
      | some pr =>
        obtain ⟨y, r2⟩ := pr
        simp [popFrom, hx, hrec]

theorem popFrom_filter {a : String} {l : List Job} {j : Job} {r : List Job}
    (h : popFrom a l = some (j, r)) :
    l.filter (fun x => x.agent == a) = j :: r.filter (fun x => x.agent == a) := by
  obtain ⟨l1, l2, rfl, rfl, hag, hnone⟩ := popFrom_some a l j r h
  have h1 : l1.filter (fun x => x.agent == a) = [] :=
    List.filter_eq_nil_iff.mpr (by intro x hx; simp [hnone x hx])
  simp [List.filter_append, h1, hag]

theorem popFrom_none_filter {a : String} {l : List Job}
    (h : popFrom a l = none) : l.filter (fun x => x.agent == a) = [] :=
  List.filter_eq_nil_iff.mpr (by
    intro x hx
    simp [(popFrom_none_iff a l).mp h x hx])

theorem peekScan_none_iff (a : String) : ∀ (l : List Job) (i : Nat),
    peekScan a l i = none ↔ popFrom a l = none := by
  intro l
  induction l with
  | nil => intro i; simp [peekScan, popFrom]
  | cons x rest ih =>
    intro i
    by_cases hx : (x.agent == a) = true
    · simp [peekScan, popFrom, hx]
    · rw [Bool.not_eq_true] at hx
      cases hrec : popFrom a rest with
      | none =>
        simp [peekScan, popFrom, hx, hrec, (ih (i + 1)).mpr hrec]
      | some pr =>
        obtain ⟨y, r2⟩ := pr
        have h2 : ¬ peekScan a rest (i + 1) = none := by
          intro hcontra
          rw [(ih (i + 1)).mp hcontra] at hrec
          cases hrec
        simp only [peekScan, popFrom, hx, Bool.false_eq_true, if_false, hrec]
        cases hscan : peekScan a rest (i + 1) with
        | none => exact absurd hscan h2
        | some pr2 => simp

theorem peekScan_fst (a : String) : ∀ (l : List Job) (i : Nat),
    (peekScan a l i).map Prod.fst = (popFrom a l).map Prod.fst := by
  intro l
  induction l with
  | nil => intro i; simp [peekScan, popFrom]
  | cons x rest ih =>
    intro i
    by_cases hx : (x.agent == a) = true
    · simp [peekScan, popFrom, hx]
    · rw [Bool.not_eq_true] at hx
      simp only [peekScan, popFrom, hx, Bool.false_eq_true, if_false]
      cases hrec : popFrom a rest with
      | none =>
        have hscan := (peekScan_none_iff a rest (i + 1)).mpr hrec
        simp [hscan]
      | some pr =>
        obtain ⟨y2, r2⟩ := pr
        have h2 := ih (i + 1)
        rw [hrec] at h2
        cases hscan : peekScan a rest (i + 1) with
        | none =>
          rw [hscan] at h2
          simp at h2
        | some pr2 =>
          obtain ⟨y, k⟩ := pr2
          rw [hscan] at h2
          simp at h2
          subst h2
          simp

/-- Lemma: `peek_for_agent` returns nothing precisely when neither lane holds a
job for the agent. -/
theorem peek_eq_none_iff (s : InMemoryPriorityQueue) (a : String) :
    s.peek_for_agent a = none ↔
      popFrom a s.high = none ∧ popFrom a s.low = none := by
  unfold peek_for_agent
  cases hh : peekScan a s.high 0 with
  | some pr =>
    obtain ⟨j, i⟩ := pr
    have hne : ¬ popFrom a s.high = none := by
      intro h1
      rw [(peekScan_none_iff a s.high 0).mpr h1] at hh
      cases hh
    simp [hne]
  | none =>
    have hh2 : popFrom a s.high = none := (peekScan_none_iff a s.high 0).mp hh
    cases hl : peekScan a s.low 0 with
    | some pr =>
      obtain ⟨j, i⟩ := pr
      have hne : ¬ popFrom a s.low = none := by
        intro h1
        rw [(peekScan_none_iff a s.low 0).mpr h1] at hl
        cases hl
      simp [hh2, hne]
    | none =>
      have hl2 : popFrom a s.low = none := (peekScan_none_iff a s.low 0).mp hl
      simp [hh2, hl2]

/-- When `peek_for_agent` returns, its job is exactly what the matching
lane scan would pop: first from `high`, else from `low`. -/
theorem peek_eq_some (s : InMemoryPriorityQueue) (a : String) (p : PeekInfo)
    (h : s.peek_for_agent a = some p) :
    (p.lane = "high" ∧ ∃ r, popFrom a s.high = some (p.job, r)) ∨
    (p.lane = "low" ∧ popFrom a s.high = none ∧
      ∃ r, popFrom a s.low = some (p.job, r)) := by
  unfold peek_for_agent at h
  cases hh : peekScan a s.high 0 with
  | some pr =>
    obtain ⟨j, i⟩ := pr
    rw [hh] at h
    obtain rfl : p = { job := j, lane := "high", position := i } :=
      (Option.some.inj h).symm
    left
    refine ⟨rfl, ?_⟩
    have := peekScan_fst a s.high 0
    rw [hh] at this
    cases hrec : popFrom a s.high with
    | none => rw [hrec] at this; cases this
    | some pr2 =>
      obtain ⟨y, r⟩ := pr2
      rw [hrec] at this
      simp at this
      subst this
      exact ⟨r, rfl⟩
  | none =>
    rw [hh] at h
    have hh2 : popFrom a s.high = none := (peekScan_none_iff a s.high 0).mp hh
    cases hl : peekScan a s.low 0 with
    | none => rw [hl] at h; cases h
    | some pr =>
      obtain ⟨j, i⟩ := pr
      rw [hl] at h
      obtain rfl : p = { job := j, lane := "low", position := i } :=
        (Option.some.inj h).symm
      right
      refine ⟨rfl, hh2, ?_⟩
      have := peekScan_fst a s.low 0
      rw [hl] at this
      cases hrec : popFrom a s.low with
      | none => rw [hrec] at this; cases this
      | some pr2 =>
        obtain ⟨y, r⟩ := pr2
        rw [hrec] at this
        simp at this
        subst this
        exact ⟨r, rfl⟩

theorem popFrom_of_find? {a : String} {l : List Job} {j : Job}
    (h : l.find? (fun x => x.agent == a) = some j) :
    ∃ r, popFrom a l = some (j, r) := by
  have hf := popFrom_fst_eq_find? a l
  rw [h] at hf
  cases hp : popFrom a l with
  | none => rw [hp] at hf; cases hf
  | some pr =>
    obtain ⟨y, r⟩ := pr
    rw [hp] at hf
    simp at hf
    subst hf
    exact ⟨r, rfl⟩

theorem popFrom_none_of_find? {a : String} {l : List Job}
    (h : l.find? (fun x => x.agent == a) = none) : popFrom a l = none := by
  have hf := popFrom_fst_eq_find? a l
  rw [h] at hf
  cases hp : popFrom a l with
  | none => rfl
  | some pr =>
    obtain ⟨y, r⟩ := pr
    rw [hp] at hf
    simp at hf

end InMemoryPriorityQueue

open InMemoryPriorityQueue

/-! ## Claim theorems -/

/-- C1: `dequeue_for_agent(A)` returns the lowest-index job for `A` in the
`high` lane, falling back to the `low` lane (`Option.or`: a high-lane match
always beats any low-lane match, regardless of enqueue order); the chosen
job is removed from its lane and inserted (`emplace`) into the inflight
table; when neither lane has a job for `A` it returns nothing and leaves
the state unchanged. -/
theorem claim_c1_dequeue_scan (A : String) (s : InMemoryPriorityQueue) :
    ((s.dequeue_for_agent A).1 =
      (s.high.find? (fun x => x.agent == A)).or
        (s.low.find? (fun x => x.agent == A))) ∧
    (∀ j, s.high.find? (fun x => x.agent == A) = some j →
      ∃ l1 l2, s.high = l1 ++ j :: l2 ∧ (∀ x ∈ l1, (x.agent == A) = false) ∧
        (s.dequeue_for_agent A).2 =
          { s with high := l1 ++ l2, inflight := emplace j.id j s.inflight }) ∧
    (s.high.find? (fun x => x.agent == A) = none →
      ∀ j, s.low.find? (fun x => x.agent == A) = some j →
        ∃ l1 l2, s.low = l1 ++ j :: l2 ∧ (∀ x ∈ l1, (x.agent == A) = false) ∧
          (s.dequeue_for_agent A).2 =
            { s with low := l1 ++ l2, inflight := emplace j.id j s.inflight }) ∧
    (s.high.find? (fun x => x.agent == A) = none →
      s.low.find? (fun x => x.agent == A) = none →
      s.dequeue_for_agent A = (none, s)) := by
  refine ⟨?_, ?_, ?_, ?_⟩
  · rw [← popFrom_fst_eq_find? A s.high, ← popFrom_fst_eq_find? A s.low]
    unfold InMemoryPriorityQueue.dequeue_for_agent
    cases hh : popFrom A s.high with
    | some pr => obtain ⟨j, r⟩ := pr; simp
    | none =>
      cases hl : popFrom A s.low with
      | some pr => obtain ⟨j, r⟩ := pr; simp
      | none => simp
  · intro j hfind
    obtain ⟨r, hp⟩ := popFrom_of_find? hfind
    obtain ⟨l1, l2, hdecomp, hr, hag, hnone⟩ := popFrom_some A s.high j r hp
    refine ⟨l1, l2, hdecomp, hnone, ?_⟩
    unfold InMemoryPriorityQueue.dequeue_for_agent
    rw [hp]
    subst hr
    rfl
  · intro hfh j hfl
    have hph : popFrom A s.high = none := popFrom_none_of_find? hfh
    obtain ⟨r, hp⟩ := popFrom_of_find? hfl
    obtain ⟨l1, l2, hdecomp, hr, hag, hnone⟩ := popFrom_some A s.low j r hp
    refine ⟨l1, l2, hdecomp, hnone, ?_⟩
    unfold InMemoryPriorityQueue.dequeue_for_agent
    rw [hph, hp]
    subst hr
    rfl
  · intro hfh hfl
    unfold InMemoryPriorityQueue.dequeue_for_agent
    rw [popFrom_none_of_find? hfh, popFrom_none_of_find? hfl]

/-- Witness for C1: at the state with one high-lane and one low-lane job
for agent `"a"`, the high-lane job is the one removed and emplaced. -/
theorem claim_c1_dequeue_scan_witness :
    ∃ l1 l2,
      ({ high := [exJobH], low := [exJobL], inflight := [] } :
        InMemoryPriorityQueue).high = l1 ++ exJobH :: l2 ∧
      (∀ x ∈ l1, (x.agent == "a") = false) ∧
      (({ high := [exJobH], low := [exJobL], inflight := [] } :
        InMemoryPriorityQueue).dequeue_for_agent "a").2 =
        { ({ high := [exJobH], low := [exJobL], inflight := [] } :
            InMemoryPriorityQueue) with
          high := l1 ++ l2, inflight := emplace exJobH.id exJobH [] } :=
  (claim_c1_dequeue_scan "a"
    { high := [exJobH], low := [exJobL], inflight := [] }).2.1 exJobH (by decide)

/-- C5: when `peek_for_agent(A)` finds a head-for-agent job,
`bring_forward_for_agent(A)` returns `true`, leaves the inflight table
alone, removes that very job (its `priority` field untouched) from its
lane and puts it at the front of the `high` lane (promoting across lanes
when it was in `low`), and an immediately following `dequeue_for_agent(A)`
returns the job `peek` reported; with no job for `A` in the lanes it
returns `false` and changes nothing. -/
theorem claim_c5_bring_forward (A : String) (s : InMemoryPriorityQueue) :
    (∀ p, s.peek_for_agent A = some p →
      (s.bring_forward_for_agent A).1 = true ∧
      (s.bring_forward_for_agent A).2.inflight = s.inflight ∧
      (s.bring_forward_for_agent A).2.high.head? = some p.job ∧
      ((s.bring_forward_for_agent A).2.high ++
        (s.bring_forward_for_agent A).2.low).Perm (s.high ++ s.low) ∧
      (p.lane = "high" →
        (s.bring_forward_for_agent A).2.low = s.low ∧
        ∃ l1 l2, s.high = l1 ++ p.job :: l2 ∧
          (s.bring_forward_for_agent A).2.high = p.job :: (l1 ++ l2)) ∧
      (p.lane = "low" →
        (s.bring_forward_for_agent A).2.high = p.job :: s.high ∧
        ∃ l1 l2, s.low = l1 ++ p.job :: l2 ∧
          (s.bring_forward_for_agent A).2.low = l1 ++ l2) ∧
      ((s.bring_forward_for_agent A).2.dequeue_for_agent A).1 = some p.job) ∧
    (s.peek_for_agent A = none → s.bring_forward_for_agent A = (false, s)) := by
  constructor
  · intro p hp
    rcases peek_eq_some s A p hp with ⟨hlane, r, hpop⟩ | ⟨hlane, hnoneH, r, hpop⟩
    · have hb : s.bring_forward_for_agent A = (true, { s with high := p.job :: r }) := by
        unfold InMemoryPriorityQueue.bring_forward_for_agent
        rw [hpop]
      obtain ⟨l1, l2, hdecomp, hr, hag, -⟩ := popFrom_some A s.high p.job r hpop
      refine ⟨by rw [hb], by rw [hb], by rw [hb]; rfl, ?_, ?_, ?_, ?_⟩
      · rw [hb]
        exact (popFrom_perm hpop).symm.append_right s.low
      · intro hl
        exact ⟨by rw [hb], l1, l2, hdecomp, by rw [hb, hr]⟩
      · intro hl
        exact absurd (hlane.symm.trans hl) (by decide)
      · rw [hb]
        simp [InMemoryPriorityQueue.dequeue_for_agent, popFrom, popFrom_agent hpop]
    · have hb : s.bring_forward_for_agent A =
          (true, { s with high := p.job :: s.high, low := r }) := by
        unfold InMemoryPriorityQueue.bring_forward_for_agent
        rw [hnoneH, hpop]
      obtain ⟨l1, l2, hdecomp, hr, hag, -⟩ := popFrom_some A s.low p.job r hpop
      refine ⟨by rw [hb], by rw [hb], by rw [hb]; rfl, ?_, ?_, ?_, ?_⟩
      · rw [hb]
        have h1 : (p.job :: (s.high ++ r)).Perm (s.high ++ (p.job :: r)) :=
          List.perm_middle.symm
        have h2 : (s.high ++ (p.job :: r)).Perm (s.high ++ s.low) :=
          List.Perm.append_left s.high (popFrom_perm hpop).symm
        exact h1.trans h2
      · intro hl
        exact absurd (hlane.symm.trans hl) (by decide)
      · intro hl
        exact ⟨by rw [hb], l1, l2, hdecomp, by rw [hb, hr]⟩
      · rw [hb]
        simp [InMemoryPriorityQueue.dequeue_for_agent, popFrom, popFrom_agent hpop]
  · intro hp
    obtain ⟨h1, h2⟩ := (peek_eq_none_iff s A).mp hp
    unfold InMemoryPriorityQueue.bring_forward_for_agent
    rw [h1, h2]

/-- Witness for C5: with agent `"a"`'s only job sitting in the low lane
behind an unrelated agent's job, bring-forward promotes it and the next
dequeue returns it. -/
theorem claim_c5_bring_forward_witness :
    (({ high := [exJobB], low := [exJobL], inflight := [] } :
        InMemoryPriorityQueue).bring_forward_for_agent "a").1 = true ∧
    ((({ high := [exJobB], low := [exJobL], inflight := [] } :
        InMemoryPriorityQueue).bring_forward_for_agent "a").2.dequeue_for_agent
          "a").1 = some exJobL := by
  have h := (claim_c5_bring_forward "a"
      { high := [exJobB], low := [exJobL], inflight := [] }).1
    { job := exJobL, lane := "low", position := 0 } (by decide)
  exact ⟨h.1, h.2.2.2.2.2.2⟩

theorem InMemoryPriorityQueue.popFrom_append_left_none {a : String}
    {l1 : List Job} (l2 : List Job) (h : popFrom a l1 = none) :
    popFrom a (l1 ++ l2) = (popFrom a l2).map (fun pr => (pr.1, l1 ++ pr.2)) := by
  induction l1 with
  | nil =>
    cases hrec : popFrom a l2 with
    | none => simp [hrec]
    | some pr => obtain ⟨y, r⟩ := pr; simp [hrec]
  | cons x rest ih =>
    have hx : (x.agent == a) = false :=
      (popFrom_none_iff a (x :: rest)).mp h x (List.mem_cons_self x rest)
    have hrest : popFrom a rest = none := by
      rw [popFrom_none_iff]
      intro j hj
      exact (popFrom_none_iff a (x :: rest)).mp h j (List.mem_cons_of_mem _ hj)
    simp only [List.cons_append, popFrom, hx, Bool.false_eq_true, if_false,
      List.append_eq]
    rw [ih hrest]
    cases popFrom a l2 with
    | none => rfl
    | some pr => rfl

/-- C7: `skip_next_for_agent(A)` removes the head-for-agent job found by
the high-then-low scan from its lane and appends it to the tail of the
same lane, returning `true`; with no queued job for `A` it returns `false`
and changes nothing; and when exactly one job for `A` is queued, the call
returns `true`, the per-agent contents of both lanes are unchanged, and
the job is still what a dequeue returns. -/
theorem claim_c7_skip_next (A : String) (s : InMemoryPriorityQueue) :
    (∀ p, s.peek_for_agent A = some p →
      (s.skip_next_for_agent A).1 = true ∧
      (s.skip_next_for_agent A).2.inflight = s.inflight ∧
      (p.lane = "high" →
        (s.skip_next_for_agent A).2.low = s.low ∧
        ∃ l1 l2, s.high = l1 ++ p.job :: l2 ∧
          (s.skip_next_for_agent A).2.high = (l1 ++ l2) ++ [p.job]) ∧
      (p.lane = "low" →
        (s.skip_next_for_agent A).2.high = s.high ∧
        ∃ l1 l2, s.low = l1 ++ p.job :: l2 ∧
          (s.skip_next_for_agent A).2.low = (l1 ++ l2) ++ [p.job])) ∧
    (s.peek_for_agent A = none → s.skip_next_for_agent A = (false, s)) ∧
    (∀ j, (s.high ++ s.low).filter (fun x => x.agent == A) = [j] →
      (s.skip_next_for_agent A).1 = true ∧
      (s.skip_next_for_agent A).2.high.filter (fun x => x.agent == A) =
        s.high.filter (fun x => x.agent == A) ∧
      (s.skip_next_for_agent A).2.low.filter (fun x => x.agent == A) =
        s.low.filter (fun x => x.agent == A) ∧
      ((s.skip_next_for_agent A).2.dequeue_for_agent A).1 = some j) := by
  refine ⟨?_, ?_, ?_⟩
  · intro p hp
    rcases peek_eq_some s A p hp with ⟨hlane, r, hpop⟩ | ⟨hlane, hnoneH, r, hpop⟩
    · have hb : s.skip_next_for_agent A = (true, { s with high := r ++ [p.job] }) := by
        unfold InMemoryPriorityQueue.skip_next_for_agent
        rw [hpop]
      obtain ⟨l1, l2, hdecomp, hr, hag, -⟩ := popFrom_some A s.high p.job r hpop
      refine ⟨by rw [hb], by rw [hb], ?_, ?_⟩
      · intro hl
        exact ⟨by rw [hb], l1, l2, hdecomp, by rw [hb, hr]⟩
      · intro hl
        exact absurd (hlane.symm.trans hl) (by decide)
    · have hb : s.skip_next_for_agent A = (true, { s with low := r ++ [p.job] }) := by
        unfold InMemoryPriorityQueue.skip_next_for_agent
        rw [hnoneH, hpop]
      obtain ⟨l1, l2, hdecomp, hr, hag, -⟩ := popFrom_some A s.low p.job r hpop
      refine ⟨by rw [hb], by rw [hb], ?_, ?_⟩
      · intro hl
        exact absurd (hlane.symm.trans hl) (by decide)
      · intro hl
        exact ⟨by rw [hb], l1, l2, hdecomp, by rw [hb, hr]⟩
  · intro hp
    obtain ⟨h1, h2⟩ := (peek_eq_none_iff s A).mp hp
    unfold InMemoryPriorityQueue.skip_next_for_agent
    rw [h1, h2]
  · intro j hsingle
    rw [List.filter_append] at hsingle
    have hcases :
        (s.high.filter (fun x => x.agent == A) = [] ∧
          s.low.filter (fun x => x.agent == A) = [j]) ∨
        (s.high.filter (fun x => x.agent == A) = [j] ∧
          s.low.filter (fun x => x.agent == A) = []) := by
      rcases List.append_eq_cons_iff.mp hsingle with ⟨ha, hb2⟩ | ⟨a', ha, hab⟩
      · exact Or.inl ⟨ha, hb2⟩
      · obtain ⟨h1, h2⟩ := List.append_eq_nil.mp hab.symm
        subst h1
        exact Or.inr ⟨by simpa using ha, h2⟩
    have hagent : (j.agent == A) = true := by
      rcases hcases with ⟨-, hl⟩ | ⟨hh, -⟩
      · have : j ∈ s.low.filter (fun x => x.agent == A) := by rw [hl]; simp
        exact (List.mem_filter.mp this).2
      · have : j ∈ s.high.filter (fun x => x.agent == A) := by rw [hh]; simp
        exact (List.mem_filter.mp this).2
    rcases hcases with ⟨hh, hl⟩ | ⟨hh, hl⟩
    · -- the single job sits in the low lane
      have hpopH : popFrom A s.high = none :=
        (popFrom_none_iff A s.high).mpr (by
          intro x hx
          by_contra hcontra
          rw [Bool.not_eq_false] at hcontra
          have : x ∈ s.high.filter (fun y => y.agent == A) :=
            List.mem_filter.mpr ⟨hx, hcontra⟩
          rw [hh] at this
          cases this)
      have hpopL : ¬ popFrom A s.low = none := by
        intro hcontra
        rw [popFrom_none_filter hcontra] at hl
        cases hl
      cases hp : popFrom A s.low with
      | none => exact absurd hp hpopL
      | some pr =>
        obtain ⟨j0, r⟩ := pr
        have hfilter := popFrom_filter hp
        rw [hl] at hfilter
        injection hfilter with hj0 hrfil0
        subst hj0
        have hrfil : r.filter (fun x => x.agent == A) = [] := hrfil0.symm
        have hb : s.skip_next_for_agent A = (true, { s with low := r ++ [j] }) := by
          unfold InMemoryPriorityQueue.skip_next_for_agent
          rw [hpopH, hp]
        refine ⟨by rw [hb], ?_, ?_, ?_⟩
        · rw [hb]
        · rw [hb]
          show (r ++ [j]).filter (fun x => x.agent == A) =
            s.low.filter (fun x => x.agent == A)
          rw [List.filter_append, hrfil, hl]
          simp [hagent]
        · rw [hb]
          have hpopR : popFrom A r = none :=
            (popFrom_none_iff A r).mpr (by
              intro x hx
              by_contra hcontra
              rw [Bool.not_eq_false] at hcontra
              have : x ∈ r.filter (fun y => y.agent == A) :=
                List.mem_filter.mpr ⟨hx, hcontra⟩
              rw [hrfil] at this
              cases this)
          show ((({ s with low := r ++ [j] } :
            InMemoryPriorityQueue)).dequeue_for_agent A).1 = some j
          unfold InMemoryPriorityQueue.dequeue_for_agent
          rw [show ({ s with low := r ++ [j] } :
              InMemoryPriorityQueue).high = s.high from rfl, hpopH]
          rw [show ({ s with low := r ++ [j] } :
              InMemoryPriorityQueue).low = r ++ [j] from rfl]
          rw [InMemoryPriorityQueue.popFrom_append_left_none [j] hpopR]
          simp [popFrom, hagent]
    · -- the single job sits in the high lane
      have hpopH : ¬ popFrom A s.high = none := by
        intro hcontra
        rw [popFrom_none_filter hcontra] at hh
        cases hh
      cases hp : popFrom A s.high with
      | none => exact absurd hp hpopH
      | some pr =>
        obtain ⟨j0, r⟩ := pr
        have hfilter := popFrom_filter hp
        rw [hh] at hfilter
        injection hfilter with hj0 hrfil0
        subst hj0
        have hrfil : r.filter (fun x => x.agent == A) = [] := hrfil0.symm
        have hb : s.skip_next_for_agent A = (true, { s with high := r ++ [j] }) := by
          unfold InMemoryPriorityQueue.skip_next_for_agent
          rw [hp]
        have hpopR : popFrom A r = none :=
          (popFrom_none_iff A r).mpr (by
            intro x hx
            by_contra hcontra
            rw [Bool.not_eq_false] at hcontra
            have : x ∈ r.filter (fun y => y.agent == A) :=
              List.mem_filter.mpr ⟨hx, hcontra⟩
            rw [hrfil] at this
            cases this)
        refine ⟨by rw [hb], ?_, ?_, ?_⟩
        · rw [hb]
          show (r ++ [j]).filter (fun x => x.agent == A) =
            s.high.filter (fun x => x.agent == A)
          rw [List.filter_append, hrfil, hh]
          simp [hagent]
        · rw [hb]
        · rw [hb]
          show ((({ s with high := r ++ [j] } :
            InMemoryPriorityQueue)).dequeue_for_agent A).1 = some j
          unfold InMemoryPriorityQueue.dequeue_for_agent
          rw [show ({ s with high := r ++ [j] } :
              InMemoryPriorityQueue).high = r ++ [j] from rfl]
          rw [InMemoryPriorityQueue.popFrom_append_left_none [j] hpopR]
          simp [popFrom, hagent]

/-- Witness for C7: with exactly one queued job for `"a"` (alone in the
low lane), skip-next reports `true` and the job is still dequeued next. -/
theorem claim_c7_skip_next_witness :
    (({ high := [exJobB], low := [exJobL], inflight := [] } :
        InMemoryPriorityQueue).skip_next_for_agent "a").1 = true ∧
    ((({ high := [exJobB], low := [exJobL], inflight := [] } :
        InMemoryPriorityQueue).skip_next_for_agent "a").2.dequeue_for_agent
          "a").1 = some exJobL := by
  have h := (claim_c7_skip_next "a"
      { high := [exJobB], low := [exJobL], inflight := [] }).2.2 exJobL (by decide)
  exact ⟨h.1, h.2.2.2⟩

theorem InMemoryPriorityQueue.complete_no_key {s : InMemoryPriorityQueue}
    {id : String} (ok : Bool) (detail : String)
    (h : id ∉ s.inflight.map Prod.fst) : s.complete id ok detail = s := by
  unfold InMemoryPriorityQueue.complete
  have hf : s.inflight.filter (fun kv => ! (kv.1 == id)) = s.inflight := by
    apply List.filter_eq_self.mpr
    intro kv hkv
    have hne : kv.1 ≠ id := by
      intro hcontra
      exact h (hcontra ▸ List.mem_map_of_mem Prod.fst hkv)
    simp [hne]
  rw [hf]

theorem InMemoryPriorityQueue.complete_idem (s : InMemoryPriorityQueue)
    (id : String) (ok1 ok2 : Bool) (d1 d2 : String) :
    (s.complete id ok1 d1).complete id ok2 d2 = s.complete id ok1 d1 := by
  unfold InMemoryPriorityQueue.complete
  have hf : (s.inflight.filter (fun kv => ! (kv.1 == id))).filter
      (fun kv => ! (kv.1 == id)) = s.inflight.filter (fun kv => ! (kv.1 == id)) :=
    List.filter_eq_self.mpr (fun kv hkv => (List.mem_filter.mp hkv).2)
  rw [hf]

/-- C8: `complete(id, ok, detail)` never touches the lanes; it removes the
entry keyed `id` from the inflight table when present and is a no-op when
absent; completing twice equals completing once.  At the HTTP level, a
`POST /complete/{id}` whose body parses returns `200 {"ok": true}` even
when `id` is unknown (state unchanged), and a second complete of the same
id also returns `200 {"ok": true}` without further effect. -/
theorem claim_c8_complete_idempotent (id : String) (ok : Bool) (detail : String)
    (s : InMemoryPriorityQueue) (st : ServerState) (bd : CompleteReq) :
    ((s.complete id ok detail).high = s.high ∧
      (s.complete id ok detail).low = s.low) ∧
    (id ∉ s.inflight.map Prod.fst → s.complete id ok detail = s) ∧
    (id ∉ (s.complete id ok detail).inflight.map Prod.fst) ∧
    (∀ kv ∈ s.inflight, kv.1 ≠ id → kv ∈ (s.complete id ok detail).inflight) ∧
    ((s.complete id ok detail).complete id ok detail = s.complete id ok detail) ∧
    (∀ path, (path.take "/complete/".length == "/complete/") = true →
      path.drop "/complete/".length = id → id ≠ "" → bd.parses = true →
      (id ∉ st.queue.inflight.map Prod.fst →
        handle (.complete path bd) st =
          ({ status := 200, body := [("ok", JVal.jbool true)] }, st)) ∧
      (handle (.complete path bd) (handle (.complete path bd) st).2 =
        ({ status := 200, body := [("ok", JVal.jbool true)] },
          (handle (.complete path bd) st).2))) := by
  refine ⟨⟨rfl, rfl⟩, ?_, ?_, ?_, ?_, ?_⟩
  · intro hid
    exact InMemoryPriorityQueue.complete_no_key ok detail hid
  · intro hcontra
    obtain ⟨kv, hkv, hfst⟩ := List.mem_map.mp hcontra
    have h2 := (List.mem_filter.mp hkv).2
    rw [hfst] at h2
    simp at h2
  · intro kv hkv hne
    exact List.mem_filter.mpr ⟨hkv, by simp [hne]⟩
  · exact InMemoryPriorityQueue.complete_idem s id ok ok detail detail
  · intro path hstart hdrop hid hbd
    have hh : ∀ st2 : ServerState, handle (.complete path bd) st2 =
        ({ status := 200, body := [("ok", JVal.jbool true)] },
         { st2 with queue := st2.queue.complete id ((bd.status.getD "ok") == "ok") (bd.err.getD "") }) := by
      intro st2
      simp only [handle]
      rw [hdrop]
      simp [hstart, hid, hbd]
    constructor
    · intro hkeys
      rw [hh st, InMemoryPriorityQueue.complete_no_key _ _ hkeys]
    · rw [hh st, hh _]
      dsimp only
      rw [InMemoryPriorityQueue.complete_idem]

/-- Witness for C8: completing an id that is not inflight, over the
concrete path `"/complete/x"`, leaves the server state unchanged and
returns `200 {"ok": true}`. -/
theorem claim_c8_complete_idempotent_witness :
    handle (.complete "/complete/x" { parses := true, status := none, err := none })
        initState =
      ({ status := 200, body := [("ok", JVal.jbool true)] }, initState) :=
  (((claim_c8_complete_idempotent "x" true "" initState.queue initState
      { parses := true, status := none, err := none }).2.2.2.2.2
    "/complete/x" (by decide) (by decide) (by decide) rfl).1) (by decide)

/-- C10: a `POST` to exactly `/complete/` (empty id segment) yields
`400 {"error": "id required"}` and leaves the whole server state — lanes,
inflight table and pause set — untouched, whatever the request body is
(even an unparseable one: the id check precedes body parsing). -/
theorem claim_c10_empty_complete_id (bd : CompleteReq) (st : ServerState) :
    handle (.complete "/complete/" bd) st =
      ({ status := 400, body := [("error", JVal.jstr "id required")] }, st) := rfl

/-- C4 counterexample: an `/enqueue` whose priority field is present but
not `"high"` (here `"urgent"`) stores the job with priority `"urgent"`,
not `"low"` as the claim states (the job does land in the low lane). -/
theorem claim_c4_priority_counterexample :
    ((handle (.enqueue { id := some "x", agent := "a", model := "m", priority := some "urgent", payload := "{}" } "f")
        initState).2.queue.low.map Job.priority = ["urgent"]) ∧
      "urgent" ≠ "low" := ⟨rfl, by decide⟩

/-- C4 amended: a missing priority is stored as `"low"` and the job goes
to the low lane; a present priority other than `"high"` still routes the
job to the low lane but is stored verbatim; exactly `"high"` routes to the
high lane. -/
theorem claim_c4_priority_default (i : Option String) (fresh ag mo pl : String)
    (st : ServerState) :
    ((handle (.enqueue { id := i, agent := ag, model := mo, priority := none, payload := pl } fresh) st).2.queue =
      { st.queue with low := st.queue.low ++
        [{ id := i.getD fresh, agent := ag, model := mo, priority := "low", payload := pl }] }) ∧
    (∀ p, p ≠ "high" →
      (handle (.enqueue { id := i, agent := ag, model := mo, priority := some p, payload := pl } fresh) st).2.queue =
        { st.queue with low := st.queue.low ++
          [{ id := i.getD fresh, agent := ag, model := mo, priority := p, payload := pl }] }) ∧
    ((handle (.enqueue { id := i, agent := ag, model := mo, priority := some "high", payload := pl } fresh) st).2.queue =
      { st.queue with high := st.queue.high ++
        [{ id := i.getD fresh, agent := ag, model := mo, priority := "high", payload := pl }] }) := by
  refine ⟨rfl, ?_, rfl⟩
  intro p hne
  have hb : (p == "high") = false := beq_eq_false_iff_ne.mpr hne
  simp only [handle, InMemoryPriorityQueue.enqueue, Option.getD_some, hb,
    Bool.false_eq_true, if_false]

/-- Witness for C4 (amended): the `"urgent"` enqueue of the counterexample
indeed lands in the low lane with its priority stored verbatim. -/
theorem claim_c4_priority_default_witness :
    (handle (.enqueue { id := none, agent := "a", model := "m", priority := some "urgent", payload := "{}" } "f")
        initState).2.queue =
      { initState.queue with low := [{ id := "f", agent := "a", model := "m", priority := "urgent", payload := "{}" }] } := by
  have h := (claim_c4_priority_default none "f" "a" "m" "{}" initState).2.1
    "urgent" (by decide)
  simpa using h

theorem agentParam_some {A : String} (h : A ≠ "") : agentParam (some A) = some A := by
  simp [agentParam, h]

theorem pausedInsert_contains_self (a : String) (l : List String) :
    (pausedInsert a l).contains a = true := by
  unfold pausedInsert
  by_cases hc : a ∈ l
  · simp [hc]
  · simp [hc]

theorem pausedInsert_contains_mono {A : String} (b : String) {l : List String}
    (h : l.contains A = true) : (pausedInsert b l).contains A = true := by
  unfold pausedInsert
  simp at h
  by_cases hc : b ∈ l
  · simp [hc, h]
  · simp [hc, h]

theorem pausedErase_contains {A b : String} {l : List String} (hne : A ≠ b)
    (h : l.contains A = true) : (pausedErase b l).contains A = true := by
  unfold pausedErase
  simp at h
  have : A ∈ l.filter (fun x => ! (x == b)) :=
    List.mem_filter.mpr ⟨h, by simp [hne]⟩
  simpa using this

/-- Membership of `A` in the pause set survives any handled request other
than a `/control/resume` whose agent parameter names `A` itself. -/
theorem handle_paused_invariant (A : String) (r : Request) (st : ServerState)
    (hst : st.paused.contains A = true)
    (hres : ∀ x, r = .resume x → agentParam x ≠ some A) :
    (handle r st).2.paused.contains A = true := by
  cases r with
  | enqueue req fresh => exact hst
  | dequeue a =>
    simp only [handle]
    repeat' split
    all_goals simpa using hst
  | stats => exact hst
  | pause a =>
    simp only [handle]
    cases hx : agentParam a with
    | none => exact hst
    | some ag => exact pausedInsert_contains_mono ag hst
  | resume a =>
    simp only [handle]
    cases hx : agentParam a with
    | none => exact hst
    | some ag =>
      have hne : A ≠ ag := by
        intro hcontra
        exact (hres a rfl) (by rw [hx, hcontra])
      exact pausedErase_contains hne hst
  | controlState => exact hst
  | cancelJobs a =>
    simp only [handle]
    repeat' split
    all_goals simpa using hst
  | complete path bd =>
    simp only [handle]
    repeat' split
    all_goals simpa using hst
  | peek a =>
    simp only [handle]
    repeat' split
    all_goals simpa using hst
  | skipNext a =>
    simp only [handle]
    repeat' split
    all_goals simpa using hst
  | bringForward a =>
    simp only [handle]
    repeat' split
    all_goals simpa using hst
  | stop a =>
    simp only [handle]
    cases hx : agentParam a with
    | none => exact hst
    | some ag => exact pausedInsert_contains_mono ag hst

/-- Pause-set membership survives a whole request sequence containing no
matching resume. -/
theorem run_paused_invariant (A : String) (rs : List Request) (st : ServerState)
    (hst : st.paused.contains A = true)
    (hres : ∀ r ∈ rs, ∀ x, r = Request.resume x → agentParam x ≠ some A) :
    (run rs st).paused.contains A = true := by
  induction rs generalizing st with
  | nil => exact hst
  | cons r rest ih =>
    exact ih (handle r st).2
      (handle_paused_invariant A r st hst (hres r (List.mem_cons_self r rest)))
      (fun r2 hr2 => hres r2 (List.mem_cons_of_mem r hr2))

/-- C3: once `A` is in the pause set (e.g. right after
`POST /control/pause?agent=A`), every `GET /dequeue?agent=A` answers
`204 No Content` and leaves the whole server state untouched (the queue is
not consulted); membership persists across any request sequence without a
matching resume; and the enqueue / complete / cancel / peek / skip_next /
bring_forward handlers neither read nor write the pause set, so pausing
`A` does not block them. -/
theorem claim_c3_pause_gate (A : String) (st0 : ServerState) (h : A ≠ "") :
    ((handle (.pause (some A)) st0).2.paused.contains A = true) ∧
    (∀ st : ServerState, st.paused.contains A = true →
      handle (.dequeue (some A)) st = ({ status := 204, body := [] }, st)) ∧
    (∀ st : ServerState, st.paused.contains A = true → ∀ rs : List Request,
      (∀ r ∈ rs, ∀ x, r = Request.resume x → agentParam x ≠ some A) →
      (run rs st).paused.contains A = true) ∧
    (∀ q : InMemoryPriorityQueue, ∀ p p' : List String, ∀ r : Request,
      pausedBlind r →
      (handle r { queue := q, paused := p }).1 =
        (handle r { queue := q, paused := p' }).1 ∧
      (handle r { queue := q, paused := p }).2.queue =
        (handle r { queue := q, paused := p' }).2.queue) := by
  refine ⟨?_, ?_, ?_, ?_⟩
  · simp only [handle, agentParam_some h]
    exact pausedInsert_contains_self A st0.paused
  · intro st hst
    have hmem : A ∈ st.paused := by simpa using hst
    simp only [handle, agentParam_some h]
    simp [hmem]
  · intro st hst rs hres
    exact run_paused_invariant A rs st hst hres
  · intro q p p' r hr
    cases r with
    | dequeue a => cases hr
    | stats => cases hr
    | pause a => cases hr
    | resume a => cases hr
    | controlState => cases hr
    | stop a => cases hr
    | enqueue req fresh => exact ⟨rfl, rfl⟩
    | complete path bd =>
      refine ⟨?_, ?_⟩ <;> (simp only [handle]; repeat' split) <;> rfl
    | cancelJobs a =>
      refine ⟨?_, ?_⟩ <;> (simp only [handle]; repeat' split) <;> rfl
    | peek a =>
      refine ⟨?_, ?_⟩ <;> (simp only [handle]; repeat' split) <;> rfl
    | skipNext a =>
      refine ⟨?_, ?_⟩ <;> (simp only [handle]; repeat' split) <;> rfl
    | bringForward a =>
      refine ⟨?_, ?_⟩ <;> (simp only [handle]; repeat' split) <;> rfl

/-- Witness for C3: after pausing agent `"a"` on the empty server, a
dequeue for `"a"` answers 204 and leaves the state unchanged. -/
theorem claim_c3_pause_gate_witness :
    handle (.dequeue (some "a")) (handle (.pause (some "a")) initState).2 =
      ({ status := 204, body := [] }, (handle (.pause (some "a")) initState).2) := by
  have h := claim_c3_pause_gate "a" initState (by decide)
  exact h.2.1 (handle (.pause (some "a")) initState).2 h.1

theorem length_sub_filter (a : String) (l : List Job) :
    l.length - (l.filter (fun j => ! (j.agent == a))).length =
      (l.filter (fun j => j.agent == a)).length := by
  induction l with
  | nil => rfl
  | cons x rest ih =>
    cases hx : (x.agent == a) with
    | true =>
      have h1 : (x :: rest).filter (fun j => ! (j.agent == a)) =
          rest.filter (fun j => ! (j.agent == a)) := by
        simp [List.filter_cons, hx]
      have h2 : (x :: rest).filter (fun j => j.agent == a) =
          x :: rest.filter (fun j => j.agent == a) := by
        simp [List.filter_cons, hx]
      rw [h1, h2, List.length_cons, List.length_cons]
      have hle := List.length_filter_le (fun j => ! (j.agent == a)) rest
      omega
    | false =>
      have h1 : (x :: rest).filter (fun j => ! (j.agent == a)) =
          x :: rest.filter (fun j => ! (j.agent == a)) := by
        simp [List.filter_cons, hx]
      have h2 : (x :: rest).filter (fun j => j.agent == a) =
          rest.filter (fun j => j.agent == a) := by
        simp [List.filter_cons, hx]
      rw [h1, h2, List.length_cons, List.length_cons]
      omega

theorem filter_filter_not (a : String) (l : List Job) :
    (l.filter (fun j => ! (j.agent == a))).filter (fun j => j.agent == a) = [] :=
  List.filter_eq_nil_iff.mpr (by
    intro x hx
    have h2 := (List.mem_filter.mp hx).2
    simp at h2
    simp [h2])

theorem cancel_count_eq (a : String) (q : InMemoryPriorityQueue) :
    (q.cancel_queued_for_agent a).1 =
      (q.high.filter (fun j => j.agent == a)).length +
        (q.low.filter (fun j => j.agent == a)).length := by
  unfold InMemoryPriorityQueue.cancel_queued_for_agent
  dsimp only
  rw [length_sub_filter, length_sub_filter]

/-- C6: `POST /control/stop?agent=A` responds
`200 {"ok": true, "paused": true, "removed": n}` with `n` the number of
jobs for `A` removed from the two lanes; afterwards `A` is paused, neither
lane holds a job for `A`, the inflight table is untouched, and the
resulting state equals `pause(A)` followed by `cancel_queued_for_agent(A)`
(`DELETE /jobs?agent=A`). -/
theorem claim_c6_stop (A : String) (st : ServerState) (h : A ≠ "") :
    (handle (.stop (some A)) st).1 =
      { status := 200,
        body := [("ok", JVal.jbool true), ("paused", JVal.jbool true),
          ("removed", JVal.jnat
            ((st.queue.high.filter (fun j => j.agent == A)).length +
              (st.queue.low.filter (fun j => j.agent == A)).length))] } ∧
    (handle (.stop (some A)) st).2.paused.contains A = true ∧
    (handle (.stop (some A)) st).2.queue.high.filter (fun j => j.agent == A) = [] ∧
    (handle (.stop (some A)) st).2.queue.low.filter (fun j => j.agent == A) = [] ∧
    (handle (.stop (some A)) st).2.queue.inflight = st.queue.inflight ∧
    (handle (.stop (some A)) st).2 =
      (handle (.cancelJobs (some A)) (handle (.pause (some A)) st).2).2 := by
  have hstop : handle (.stop (some A)) st =
      ({ status := 200,
         body := [("ok", JVal.jbool true), ("paused", JVal.jbool true),
           ("removed", JVal.jnat (st.queue.cancel_queued_for_agent A).1)] },
       { queue := (st.queue.cancel_queued_for_agent A).2,
         paused := pausedInsert A st.paused }) := by
    simp only [handle, agentParam_some h]
  refine ⟨?_, ?_, ?_, ?_, ?_, ?_⟩
  · rw [hstop, cancel_count_eq]
  · rw [hstop]
    exact pausedInsert_contains_self A st.paused
  · rw [hstop]
    exact filter_filter_not A st.queue.high
  · rw [hstop]
    exact filter_filter_not A st.queue.low
  · rw [hstop]
    rfl
  · rw [hstop]
    simp only [handle, agentParam_some h]

/-- Witness for C6: stopping agent `"a"` on a server with one queued job
for `"a"` and one for `"b"` pauses `"a"` and removes exactly one job. -/
theorem claim_c6_stop_witness :
    (handle (.stop (some "a"))
        { queue := { high := [], low := [exJobL, exJobB], inflight := [] },
          paused := [] }).1 =
      { status := 200,
        body := [("ok", JVal.jbool true), ("paused", JVal.jbool true),
          ("removed", JVal.jnat 1)] } ∧
    (handle (.stop (some "a"))
        { queue := { high := [], low := [exJobL, exJobB], inflight := [] },
          paused := [] }).2.paused.contains "a" = true := by
  have h := claim_c6_stop "a"
    { queue := { high := [], low := [exJobL, exJobB], inflight := [] },
      paused := [] } (by decide)
  refine ⟨?_, h.2.1⟩
  rw [h.1]
  rfl

/-! ## Conservation and uniqueness helpers -/

theorem perm_append_singleton_mid (x : String) (H L I : List String) :
    (((H ++ [x]) ++ L) ++ I).Perm (x :: ((H ++ L) ++ I)) := by
  have h1 : (H ++ [x]) ++ L = H ++ (x :: L) := by simp
  rw [h1]
  exact List.perm_middle.append_right I

theorem perm_append_singleton_end (x : String) (M I : List String) :
    ((M ++ [x]) ++ I).Perm (x :: (M ++ I)) := by
  have h1 : (M ++ [x]) ++ I = M ++ (x :: I) := by simp
  rw [h1]
  exact List.perm_middle

theorem liveIds_enqueue (q : InMemoryPriorityQueue) (j : Job) :
    (liveIds (q.enqueue j)).Perm (j.id :: liveIds q) := by
  unfold InMemoryPriorityQueue.enqueue
  by_cases hp : (j.priority == "high") = true
  · simp only [hp, if_true]
    unfold liveIds
    dsimp only
    rw [List.map_append]
    exact perm_append_singleton_mid j.id _ _ _
  · rw [Bool.not_eq_true] at hp
    simp only [hp, Bool.false_eq_true, if_false]
    unfold liveIds
    dsimp only
    rw [List.map_append, ← List.append_assoc]
    exact perm_append_singleton_end j.id _ _

theorem any_key_iff (id : String) (m : List (String × Job)) :
    m.any (fun kv => kv.1 == id) = true ↔ id ∈ m.map Prod.fst := by
  rw [List.any_eq_true]
  constructor
  · rintro ⟨kv, hkv, hbeq⟩
    exact List.mem_map.mpr ⟨kv, hkv, by simpa using hbeq⟩
  · intro hmem
    obtain ⟨kv, hkv, hfst⟩ := List.mem_map.mp hmem
    exact ⟨kv, hkv, by simp [hfst]⟩

theorem emplace_of_not_mem {id : String} (j : Job) {m : List (String × Job)}
    (h : id ∉ m.map Prod.fst) :
    InMemoryPriorityQueue.emplace id j m = m ++ [(id, j)] := by
  unfold InMemoryPriorityQueue.emplace
  rw [if_neg (fun hcontra => h ((any_key_iff id m).mp hcontra))]

theorem uniqueIds_parts {q : InMemoryPriorityQueue} (hu : UniqueIds q) :
    (q.high.map Job.id ++ q.low.map Job.id).Nodup ∧
      (q.inflight.map Prod.fst).Nodup ∧
      (q.high.map Job.id ++ q.low.map Job.id).Disjoint (q.inflight.map Prod.fst) :=
  List.nodup_append.mp hu

theorem dequeue_liveIds_perm (q : InMemoryPriorityQueue) (a : String)
    (hu : UniqueIds q) :
    (liveIds (q.dequeue_for_agent a).2).Perm (liveIds q) := by
  obtain ⟨hnodHL, hnodI, hdisj⟩ := uniqueIds_parts hu
  unfold InMemoryPriorityQueue.dequeue_for_agent
  cases hh : popFrom a q.high with
  | some pr =>
    obtain ⟨j, h2⟩ := pr
    have hjmem : j ∈ q.high := (popFrom_perm hh).mem_iff.mpr (List.mem_cons_self _ _)
    have hidI : j.id ∉ q.inflight.map Prod.fst := fun hmem =>
      hdisj (List.mem_append.mpr (Or.inl (List.mem_map_of_mem Job.id hjmem))) hmem
    have hmap : (q.high.map Job.id).Perm (j.id :: h2.map Job.id) :=
      (popFrom_perm hh).map Job.id
    dsimp only
    rw [emplace_of_not_mem j hidI]
    unfold liveIds
    dsimp only
    rw [List.map_append]
    have s1 : ((h2.map Job.id ++ q.low.map Job.id) ++
        (q.inflight.map Prod.fst ++ [j.id])).Perm
        (j.id :: ((h2.map Job.id ++ q.low.map Job.id) ++ q.inflight.map Prod.fst)) := by
      rw [← List.append_assoc]
      exact List.perm_append_singleton _ _
    have s2 : (((j.id :: h2.map Job.id) ++ q.low.map Job.id) ++
        q.inflight.map Prod.fst).Perm
        ((q.high.map Job.id ++ q.low.map Job.id) ++ q.inflight.map Prod.fst) :=
      (hmap.symm.append_right _).append_right _
    exact s1.trans s2
  | none =>
    cases hl : popFrom a q.low with
    | some pr =>
      obtain ⟨j, l2⟩ := pr
      have hjmem : j ∈ q.low := (popFrom_perm hl).mem_iff.mpr (List.mem_cons_self _ _)
      have hidI : j.id ∉ q.inflight.map Prod.fst := fun hmem =>
        hdisj (List.mem_append.mpr (Or.inr (List.mem_map_of_mem Job.id hjmem))) hmem
      have hmap : (q.low.map Job.id).Perm (j.id :: l2.map Job.id) :=
        (popFrom_perm hl).map Job.id
      dsimp only
      rw [emplace_of_not_mem j hidI]
      unfold liveIds
      dsimp only
      rw [List.map_append]
      have s1 : ((q.high.map Job.id ++ l2.map Job.id) ++
          (q.inflight.map Prod.fst ++ [j.id])).Perm
          (j.id :: ((q.high.map Job.id ++ l2.map Job.id) ++ q.inflight.map Prod.fst)) := by
        rw [← List.append_assoc]
        exact List.perm_append_singleton _ _
      have s2 : (j.id :: (q.high.map Job.id ++ l2.map Job.id)).Perm
          (q.high.map Job.id ++ q.low.map Job.id) :=
        List.perm_middle.symm.trans (List.Perm.append_left _ hmap.symm)
      exact s1.trans (s2.append_right _)
    | none => exact List.Perm.refl _

theorem skip_liveIds_perm (q : InMemoryPriorityQueue) (a : String) :
    (liveIds (q.skip_next_for_agent a).2).Perm (liveIds q) := by
  unfold InMemoryPriorityQueue.skip_next_for_agent
  cases hh : popFrom a q.high with
  | some pr =>
    obtain ⟨j, h2⟩ := pr
    have hmap : (q.high.map Job.id).Perm (j.id :: h2.map Job.id) :=
      (popFrom_perm hh).map Job.id
    dsimp only
    unfold liveIds
    dsimp only
    rw [List.map_append]
    have hx : (h2.map Job.id ++ [j.id]).Perm (q.high.map Job.id) :=
      (List.perm_append_singleton _ _).trans hmap.symm
    exact (hx.append_right _).append_right _
  | none =>
    cases hl : popFrom a q.low with
    | some pr =>
      obtain ⟨j, l2⟩ := pr
      have hmap : (q.low.map Job.id).Perm (j.id :: l2.map Job.id) :=
        (popFrom_perm hl).map Job.id
      dsimp only
      unfold liveIds
      dsimp only
      rw [List.map_append]
      have hx : (l2.map Job.id ++ [j.id]).Perm (q.low.map Job.id) :=
        (List.perm_append_singleton _ _).trans hmap.symm
      exact (List.Perm.append_left _ hx).append_right _
    | none => exact List.Perm.refl _

theorem bring_liveIds_perm (q : InMemoryPriorityQueue) (a : String) :
    (liveIds (q.bring_forward_for_agent a).2).Perm (liveIds q) := by
  unfold InMemoryPriorityQueue.bring_forward_for_agent
  cases hh : popFrom a q.high with
  | some pr =>
    obtain ⟨j, h2⟩ := pr
    have hmap : (q.high.map Job.id).Perm (j.id :: h2.map Job.id) :=
      (popFrom_perm hh).map Job.id
    dsimp only
    unfold liveIds
    dsimp only
    exact (hmap.symm.append_right _).append_right _
  | none =>
    cases hl : popFrom a q.low with
    | some pr =>
      obtain ⟨j, l2⟩ := pr
      have hmap : (q.low.map Job.id).Perm (j.id :: l2.map Job.id) :=
        (popFrom_perm hl).map Job.id
      dsimp only
      unfold liveIds
      dsimp only
      have s2 : (j.id :: (q.high.map Job.id ++ l2.map Job.id)).Perm
          (q.high.map Job.id ++ q.low.map Job.id) :=
        List.perm_middle.symm.trans (List.Perm.append_left _ hmap.symm)
      exact s2.append_right _
    | none => exact List.Perm.refl _

theorem complete_liveIds_sublist (q : InMemoryPriorityQueue) (id : String)
    (ok : Bool) (d : String) :
    (liveIds (q.complete id ok d)).Sublist (liveIds q) := by
  unfold InMemoryPriorityQueue.complete liveIds
  dsimp only
  exact List.Sublist.append (List.Sublist.refl _)
    ((List.filter_sublist _).map Prod.fst)

theorem cancel_liveIds_sublist (q : InMemoryPriorityQueue) (a : String) :
    (liveIds (q.cancel_queued_for_agent a).2).Sublist (liveIds q) := by
  unfold InMemoryPriorityQueue.cancel_queued_for_agent liveIds
  dsimp only
  exact List.Sublist.append
    (List.Sublist.append ((List.filter_sublist _).map Job.id)
      ((List.filter_sublist _).map Job.id))
    (List.Sublist.refl _)

theorem length_filter_erase_key {id : String} {m : List (String × Job)}
    (hn : (m.map Prod.fst).Nodup) (hmem : id ∈ m.map Prod.fst) :
    (m.filter (fun kv => ! (kv.1 == id))).length + 1 = m.length := by
  induction m with
  | nil => cases hmem
  | cons kv rest ih =>
    rw [List.map_cons, List.nodup_cons] at hn
    obtain ⟨hnot, hrest⟩ := hn
    by_cases hk : kv.1 = id
    · have hfr : rest.filter (fun kv2 => ! (kv2.1 == id)) = rest := by
        apply List.filter_eq_self.mpr
        intro kv2 hkv2
        have hne : kv2.1 ≠ id := by
          intro hc
          apply hnot
          rw [hk, ← hc]
          exact List.mem_map_of_mem Prod.fst hkv2
        simp [hne]
      have hcons : (kv :: rest).filter (fun kv2 => ! (kv2.1 == id)) =
          rest.filter (fun kv2 => ! (kv2.1 == id)) := by
        simp [List.filter_cons, hk]
      rw [hcons, hfr]
      simp
    · have hcons : (kv :: rest).filter (fun kv2 => ! (kv2.1 == id)) =
          kv :: rest.filter (fun kv2 => ! (kv2.1 == id)) := by
        simp [List.filter_cons, hk]
      have hmem2 : id ∈ rest.map Prod.fst := by
        rw [List.map_cons] at hmem
        rcases List.mem_cons.mp hmem with heq | hm
        · exact absurd heq.symm hk
        · exact hm
      rw [hcons]
      simp only [List.length_cons]
      have := ih hrest hmem2
      omega

theorem skip_inflight_eq (q : InMemoryPriorityQueue) (a : String) :
    (q.skip_next_for_agent a).2.inflight = q.inflight := by
  unfold InMemoryPriorityQueue.skip_next_for_agent
  repeat' split
  all_goals rfl

theorem bring_inflight_eq (q : InMemoryPriorityQueue) (a : String) :
    (q.bring_forward_for_agent a).2.inflight = q.inflight := by
  unfold InMemoryPriorityQueue.bring_forward_for_agent
  repeat' split
  all_goals rfl

theorem skip_lengths (q : InMemoryPriorityQueue) (a : String) :
    (q.skip_next_for_agent a).2.high.length + (q.skip_next_for_agent a).2.low.length =
      q.high.length + q.low.length := by
  unfold InMemoryPriorityQueue.skip_next_for_agent
  cases hh : popFrom a q.high with
  | some pr =>
    obtain ⟨j, h2⟩ := pr
    have hlen := (popFrom_perm hh).length_eq
    simp at hlen
    dsimp only
    simp [List.length_append]
    omega
  | none =>
    cases hl : popFrom a q.low with
    | some pr =>
      obtain ⟨j, l2⟩ := pr
      have hlen := (popFrom_perm hl).length_eq
      simp at hlen
      dsimp only
      simp [List.length_append]
      omega
    | none => rfl

theorem bring_lengths (q : InMemoryPriorityQueue) (a : String) :
    (q.bring_forward_for_agent a).2.high.length +
      (q.bring_forward_for_agent a).2.low.length =
      q.high.length + q.low.length := by
  unfold InMemoryPriorityQueue.bring_forward_for_agent
  cases hh : popFrom a q.high with
  | some pr =>
    obtain ⟨j, h2⟩ := pr
    have hlen := (popFrom_perm hh).length_eq
    simp at hlen
    dsimp only
    simp
    omega
  | none =>
    cases hl : popFrom a q.low with
    | some pr =>
      obtain ⟨j, l2⟩ := pr
      have hlen := (popFrom_perm hl).length_eq
      simp at hlen
      dsimp only
      simp
      omega
    | none => rfl

theorem dequeue_none_eq {q : InMemoryPriorityQueue} {a : String}
    (h : (q.dequeue_for_agent a).1 = none) : (q.dequeue_for_agent a).2 = q := by
  unfold InMemoryPriorityQueue.dequeue_for_agent at h ⊢
  cases hh : popFrom a q.high with
  | some pr =>
    obtain ⟨j, h2⟩ := pr
    rw [hh] at h
    exact Option.noConfusion h
  | none =>
    rw [hh] at h
    cases hl : popFrom a q.low with
    | some pr =>
      obtain ⟨j, l2⟩ := pr
      rw [hl] at h
      exact Option.noConfusion h
    | none => rfl

theorem dequeue_some_counts {q : InMemoryPriorityQueue} {a : String}
    (hu : UniqueIds q) {j : Job}
    (h : (q.dequeue_for_agent a).1 = some j) :
    (q.dequeue_for_agent a).2.high.length + (q.dequeue_for_agent a).2.low.length + 1 =
      q.high.length + q.low.length ∧
    (q.dequeue_for_agent a).2.inflight.length = q.inflight.length + 1 := by
  obtain ⟨hnodHL, hnodI, hdisj⟩ := uniqueIds_parts hu
  unfold InMemoryPriorityQueue.dequeue_for_agent
  cases hh : popFrom a q.high with
  | some pr =>
    obtain ⟨j0, h2⟩ := pr
    have hjmem : j0 ∈ q.high := (popFrom_perm hh).mem_iff.mpr (List.mem_cons_self _ _)
    have hidI : j0.id ∉ q.inflight.map Prod.fst := fun hmem =>
      hdisj (List.mem_append.mpr (Or.inl (List.mem_map_of_mem Job.id hjmem))) hmem
    have hlen := (popFrom_perm hh).length_eq
    simp at hlen
    constructor
    · dsimp only
      omega
    · dsimp only
      rw [emplace_of_not_mem j0 hidI]
      simp
  | none =>
    cases hl : popFrom a q.low with
    | some pr =>
      obtain ⟨j0, l2⟩ := pr
      have hjmem : j0 ∈ q.low := (popFrom_perm hl).mem_iff.mpr (List.mem_cons_self _ _)
      have hidI : j0.id ∉ q.inflight.map Prod.fst := fun hmem =>
        hdisj (List.mem_append.mpr (Or.inr (List.mem_map_of_mem Job.id hjmem))) hmem
      have hlen := (popFrom_perm hl).length_eq
      simp at hlen
      constructor
      · dsimp only
        omega
      · dsimp only
        rw [emplace_of_not_mem j0 hidI]
        simp
    | none =>
      unfold InMemoryPriorityQueue.dequeue_for_agent at h
      rw [hh, hl] at h
      simp at h

theorem complete_inflight_len {q : InMemoryPriorityQueue} {id : String}
    (hu : UniqueIds q) (hmem : id ∈ q.inflight.map Prod.fst) (ok : Bool) (d : String) :
    (q.complete id ok d).inflight.length + 1 = q.inflight.length := by
  obtain ⟨-, hnodI, -⟩ := uniqueIds_parts hu
  unfold InMemoryPriorityQueue.complete
  dsimp only
  exact length_filter_erase_key hnodI hmem

theorem cancel_counts (q : InMemoryPriorityQueue) (a : String) :
    (q.cancel_queued_for_agent a).1 +
      (q.cancel_queued_for_agent a).2.high.length +
      (q.cancel_queued_for_agent a).2.low.length =
      q.high.length + q.low.length ∧
    (q.cancel_queued_for_agent a).2.inflight = q.inflight := by
  unfold InMemoryPriorityQueue.cancel_queued_for_agent
  dsimp only
  constructor
  · have h1 := List.length_filter_le (fun j => ! (j.agent == a)) q.high
    have h2 := List.length_filter_le (fun j => ! (j.agent == a)) q.low
    omega
  · rfl

theorem enqueue_lengths (q : InMemoryPriorityQueue) (j : Job) :
    (q.enqueue j).high.length + (q.enqueue j).low.length =
      q.high.length + q.low.length + 1 := by
  unfold InMemoryPriorityQueue.enqueue
  by_cases hp : (j.priority == "high") = true
  · simp [hp]
    omega
  · rw [Bool.not_eq_true] at hp
    simp [hp]
    omega

theorem enqueue_inflight_eq (q : InMemoryPriorityQueue) (j : Job) :
    (q.enqueue j).inflight = q.inflight := by
  unfold InMemoryPriorityQueue.enqueue
  split
  · rfl
  · rfl

/-- Every handled request preserves id-uniqueness, provided an enqueue
only ever stores an id that is not currently live. -/
theorem uniqueIds_step (r : Request) (st : ServerState)
    (hu : UniqueIds st.queue) (hf : freshOk r st = true) :
    UniqueIds (handle r st).2.queue := by
  cases r with
  | enqueue req fresh =>
    have hnot : (req.id.getD fresh) ∉ liveIds st.queue := by
      simp [freshOk] at hf
      exact hf
    exact ((liveIds_enqueue st.queue _).nodup_iff).mpr (List.nodup_cons.mpr ⟨hnot, hu⟩)
  | dequeue a =>
    simp only [handle]
    cases hx : agentParam a with
    | none => exact hu
    | some ag =>
      by_cases hp : st.paused.contains ag = true
      · simp only [hp, if_true]
        exact hu
      · rw [Bool.not_eq_true] at hp
        simp only [hp, Bool.false_eq_true, if_false]
        have hperm := dequeue_liveIds_perm st.queue ag hu
        cases hq : st.queue.dequeue_for_agent ag with
        | mk r1 q2 =>
          rw [hq] at hperm
          cases r1 with
          | none => exact hperm.nodup_iff.mpr hu
          | some j => exact hperm.nodup_iff.mpr hu
  | stats => exact hu
  | pause a =>
    simp only [handle]
    cases hx : agentParam a with
    | none => exact hu
    | some ag => exact hu
  | resume a =>
    simp only [handle]
    cases hx : agentParam a with
    | none => exact hu
    | some ag => exact hu
  | controlState => exact hu
  | cancelJobs a =>
    simp only [handle]
    cases hx : agentParam a with
    | none => exact hu
    | some ag => exact hu.sublist (cancel_liveIds_sublist st.queue ag)
  | complete path bd =>
    simp only [handle]
    repeat' split
    all_goals first
      | exact hu
      | exact hu.sublist (complete_liveIds_sublist st.queue
          (path.drop "/complete/".length) ((bd.status.getD "ok") == "ok") (bd.err.getD ""))
  | peek a =>
    simp only [handle]
    repeat' split
    all_goals exact hu
  | skipNext a =>
    simp only [handle]
    cases hx : agentParam a with
    | none => exact hu
    | some ag => exact (skip_liveIds_perm st.queue ag).nodup_iff.mpr hu
  | bringForward a =>
    simp only [handle]
    cases hx : agentParam a with
    | none => exact hu
    | some ag => exact (bring_liveIds_perm st.queue ag).nodup_iff.mpr hu
  | stop a =>
    simp only [handle]
    cases hx : agentParam a with
    | none => exact hu
    | some ag => exact hu.sublist (cancel_liveIds_sublist st.queue ag)

/-- Id-uniqueness holds in every state reached by a fresh-id trace. -/
theorem uniqueIds_run (rs : List Request) : ∀ (st : ServerState),
    UniqueIds st.queue → freshRun rs st = true → UniqueIds (run rs st).queue := by
  induction rs with
  | nil => intro st hu _; exact hu
  | cons r rest ih =>
    intro st hu hf
    simp only [freshRun] at hf
    rw [Bool.and_eq_true] at hf
    obtain ⟨h1, h2⟩ := hf
    exact ih (handle r st).2 (uniqueIds_step r st hu h1) h2

/-- Every handled request preserves the conservation equations, provided
the state has unique ids and any complete call hits the inflight table. -/
theorem consInv_step (r : Request) (st : ServerState) (c : Counts)
    (hu : UniqueIds st.queue) (hinv : ConsInv st c) (hh : hitOk r st = true) :
    ConsInv (handle r st).2 (countsStep r st c) := by
  obtain ⟨he1, he2⟩ := hinv
  cases r with
  | enqueue req fresh =>
    have hl := enqueue_lengths st.queue { id := req.id.getD fresh, agent := req.agent, model := req.model, priority := req.priority.getD "low", payload := req.payload }
    have hi := enqueue_inflight_eq st.queue { id := req.id.getD fresh, agent := req.agent, model := req.model, priority := req.priority.getD "low", payload := req.payload }
    constructor
    · dsimp only [handle, countsStep]
      omega
    · dsimp only [handle, countsStep]
      rw [hi]
      omega
  | dequeue a =>
    simp only [handle, countsStep]
    cases hx : agentParam a with
    | none => exact ⟨he1, he2⟩
    | some ag =>
      by_cases hp : st.paused.contains ag = true
      · simp only [hp, if_true]
        exact ⟨he1, he2⟩
      · rw [Bool.not_eq_true] at hp
        simp only [hp, Bool.false_eq_true, if_false]
        cases hq : st.queue.dequeue_for_agent ag with
        | mk r1 q2 =>
          cases r1 with
          | none =>
            have h3 : q2 = st.queue := by
              have h4 := dequeue_none_eq (q := st.queue) (a := ag) (by rw [hq])
              rw [hq] at h4
              simpa using h4
            rw [h3]
            exact ⟨he1, he2⟩
          | some j =>
            have hj1 : (st.queue.dequeue_for_agent ag).1 = some j := by rw [hq]
            obtain ⟨hlen, hinf⟩ := dequeue_some_counts hu hj1
            rw [hq] at hlen hinf
            dsimp only at hlen hinf
            constructor
            · dsimp only
              omega
            · dsimp only
              omega
  | stats => exact ⟨he1, he2⟩
  | pause a =>
    simp only [handle, countsStep]
    cases hx : agentParam a with
    | none => exact ⟨he1, he2⟩
    | some ag => exact ⟨he1, he2⟩
  | resume a =>
    simp only [handle, countsStep]
    cases hx : agentParam a with
    | none => exact ⟨he1, he2⟩
    | some ag => exact ⟨he1, he2⟩
  | controlState => exact ⟨he1, he2⟩
  | cancelJobs a =>
    simp only [handle, countsStep]
    cases hx : agentParam a with
    | none => exact ⟨he1, he2⟩
    | some ag =>
      obtain ⟨hc1, hc2⟩ := cancel_counts st.queue ag
      constructor
      · dsimp only
        omega
      · dsimp only
        rw [hc2]
        omega
  | complete path bd =>
    by_cases hpre : (path.take "/complete/".length == "/complete/") = true
    · by_cases hid : path.drop "/complete/".length = ""
      · have hstep : handle (.complete path bd) st =
            ({ status := 400, body := [("error", JVal.jstr "id required")] }, st) := by
          simp only [handle]
          simp [hpre, hid]
        have hcount : countsStep (.complete path bd) st c = c := by
          simp only [countsStep]
          simp [hpre, hid]
        rw [hstep, hcount]
        exact ⟨he1, he2⟩
      · by_cases hbd : bd.parses = true
        · have hstep : handle (.complete path bd) st =
              ({ status := 200, body := [("ok", JVal.jbool true)] },
               { st with queue := st.queue.complete (path.drop "/complete/".length) ((bd.status.getD "ok") == "ok") (bd.err.getD "") }) := by
            simp only [handle]
            simp [hpre, hid, hbd]
          have hcount : countsStep (.complete path bd) st c =
              { c with completed := c.completed + 1 } := by
            simp only [countsStep]
            simp [hpre, hid, hbd]
          rw [hstep, hcount]
          have hmem : (path.drop "/complete/".length) ∈ st.queue.inflight.map Prod.fst := by
            simp only [hitOk] at hh
            simp [hpre, hid, hbd] at hh
            simpa using hh
          have hlen := complete_inflight_len hu hmem ((bd.status.getD "ok") == "ok") (bd.err.getD "")
          constructor
          · dsimp only
            have hh1 : (st.queue.complete (path.drop "/complete/".length) ((bd.status.getD "ok") == "ok") (bd.err.getD "")).high = st.queue.high := rfl
            have hh2 : (st.queue.complete (path.drop "/complete/".length) ((bd.status.getD "ok") == "ok") (bd.err.getD "")).low = st.queue.low := rfl
            rw [hh1, hh2]
            omega
          · dsimp only
            omega
        · have hstep : handle (.complete path bd) st =
              ({ status := 400, body := [("error", JVal.jstr "json parse error")] }, st) := by
            simp only [handle]
            simp [hpre, hid, hbd]
          have hcount : countsStep (.complete path bd) st c = c := by
            simp only [countsStep]
            simp [hpre, hid, hbd]
          rw [hstep, hcount]
          exact ⟨he1, he2⟩
    · have hstep : handle (.complete path bd) st =
          ({ status := 404, body := [("error", JVal.jstr "not found")] }, st) := by
        simp only [handle]
        simp [hpre]
      have hcount : countsStep (.complete path bd) st c = c := by
        simp only [countsStep]
        simp [hpre]
      rw [hstep, hcount]
      exact ⟨he1, he2⟩
  | peek a =>
    simp only [handle, countsStep]
    repeat' split
    all_goals exact ⟨he1, he2⟩
  | skipNext a =>
    simp only [handle, countsStep]
    cases hx : agentParam a with
    | none => exact ⟨he1, he2⟩
    | some ag =>
      have hl := skip_lengths st.queue ag
      have hi := skip_inflight_eq st.queue ag
      constructor
      · dsimp only
        omega
      · dsimp only
        rw [hi]
        omega
  | bringForward a =>
    simp only [handle, countsStep]
    cases hx : agentParam a with
    | none => exact ⟨he1, he2⟩
    | some ag =>
      have hl := bring_lengths st.queue ag
      have hi := bring_inflight_eq st.queue ag
      constructor
      · dsimp only
        omega
      · dsimp only
        rw [hi]
        omega
  | stop a =>
    simp only [handle, countsStep]
    cases hx : agentParam a with
    | none => exact ⟨he1, he2⟩
    | some ag =>
      obtain ⟨hc1, hc2⟩ := cancel_counts st.queue ag
      constructor
      · dsimp only
        omega
      · dsimp only
        rw [hc2]
        omega

/-- The conservation equations hold along any fresh-id, inflight-hitting
trace. -/
theorem consInv_run (rs : List Request) : ∀ (st : ServerState) (c : Counts),
    UniqueIds st.queue → ConsInv st c → freshRun rs st = true →
    hitRun rs st = true →
    ConsInv (runC rs st c).1 (runC rs st c).2 := by
  induction rs with
  | nil => intro st c _ hinv _ _; exact hinv
  | cons r rest ih =>
    intro st c hu hinv hf hh
    simp only [freshRun] at hf
    simp only [hitRun] at hh
    rw [Bool.and_eq_true] at hf hh
    obtain ⟨hf1, hf2⟩ := hf
    obtain ⟨hh1, hh2⟩ := hh
    exact ih (handle r st).2 (countsStep r st c)
      (uniqueIds_step r st hu hf1) (consInv_step r st c hu hinv hh1) hf2 hh2

/-- C2 counterexample: the code never checks client-supplied ids, so two
`/enqueue` calls with the same explicit id put two jobs with id `"x"` into
the low lane, violating uniqueness as the claim states it. -/
theorem claim_c2_counterexample :
    ¬ UniqueIds (run
      [.enqueue { id := some "x", agent := "a", model := "m", priority := some "low", payload := "p" } "f1",
       .enqueue { id := some "x", agent := "a", model := "m", priority := some "low", payload := "p" } "f2"]
      initState).queue := by
  unfold UniqueIds
  decide

/-- C2 amended: provided every enqueue stores an id that is not currently
live (which the spec''s globally-unique-id data model presumes), every
state reachable from the empty server by any request sequence has the job
id unique across the high lane, the low lane and the inflight table — no
id twice within one location, none in two locations. -/
theorem claim_c2_unique_ids (rs : List Request)
    (h : freshRun rs initState = true) :
    UniqueIds (run rs initState).queue :=
  uniqueIds_run rs initState (by unfold UniqueIds; decide) h

/-- Witness for C2 at a concrete fresh-id trace: two enqueues with
distinct ids followed by a dequeue. -/
theorem claim_c2_unique_ids_witness :
    freshRun
      [.enqueue { id := some "x", agent := "a", model := "m", priority := some "low", payload := "p" } "f1",
       .enqueue { id := some "y", agent := "a", model := "m", priority := some "high", payload := "p" } "f2",
       .dequeue (some "a")] initState = true ∧
    UniqueIds (run
      [.enqueue { id := some "x", agent := "a", model := "m", priority := some "low", payload := "p" } "f1",
       .enqueue { id := some "y", agent := "a", model := "m", priority := some "high", payload := "p" } "f2",
       .dequeue (some "a")] initState).queue :=
  ⟨by decide, claim_c2_unique_ids _ (by decide)⟩

/-- C9 counterexample: a single `POST /complete/x` on the empty server
(unknown id) bumps the completed counter without shrinking inflight, so
`dequeued = completed + inflight` fails (0 ≠ 1 + 0). -/
theorem claim_c9_counterexample :
    ¬ ((runC [.complete "/complete/x" { parses := true, status := none, err := none }] initState zeroCounts).2.dequeued =
       (runC [.complete "/complete/x" { parses := true, status := none, err := none }] initState zeroCounts).2.completed +
       (runC [.complete "/complete/x" { parses := true, status := none, err := none }] initState zeroCounts).1.queue.snapshot.inflight.length) := by
  decide

/-- C9 amended: after any request sequence from the empty server in which
every enqueue uses a fresh id and every well-formed complete call names an
id currently inflight, the snapshot sizes satisfy
`enqueued = dequeued + cancelled + queued_high + queued_low` and
`dequeued = completed + inflight` (the subtraction form of the spec,
stated additively). -/
theorem claim_c9_conservation (rs : List Request)
    (hf : freshRun rs initState = true) (hht : hitRun rs initState = true) :
    (runC rs initState zeroCounts).2.enqueued =
      (runC rs initState zeroCounts).2.dequeued +
      (runC rs initState zeroCounts).2.cancelled +
      (runC rs initState zeroCounts).1.queue.snapshot.high.length +
      (runC rs initState zeroCounts).1.queue.snapshot.low.length ∧
    (runC rs initState zeroCounts).2.dequeued =
      (runC rs initState zeroCounts).2.completed +
      (runC rs initState zeroCounts).1.queue.snapshot.inflight.length := by
  obtain ⟨h1, h2⟩ := consInv_run rs initState zeroCounts
    (by unfold UniqueIds; decide) ⟨rfl, rfl⟩ hf hht
  constructor
  · simpa [InMemoryPriorityQueue.snapshot] using h1
  · simpa [InMemoryPriorityQueue.snapshot] using h2

/-- Witness for C9: enqueue, dequeue, complete of the dequeued id, then a
cancel — the counters balance against the final snapshot. -/
theorem claim_c9_conservation_witness :
    freshRun
      [.enqueue { id := some "x", agent := "a", model := "m", priority := some "low", payload := "p" } "f1",
       .dequeue (some "a"),
       .complete "/complete/x" { parses := true, status := none, err := none },
       .enqueue { id := some "y", agent := "b", model := "m", priority := some "low", payload := "p" } "f2",
       .cancelJobs (some "b")] initState = true ∧
    hitRun
      [.enqueue { id := some "x", agent := "a", model := "m", priority := some "low", payload := "p" } "f1",
       .dequeue (some "a"),
       .complete "/complete/x" { parses := true, status := none, err := none },
       .enqueue { id := some "y", agent := "b", model := "m", priority := some "low", payload := "p" } "f2",
       .cancelJobs (some "b")] initState = true ∧
    ((runC
      [.enqueue { id := some "x", agent := "a", model := "m", priority := some "low", payload := "p" } "f1",
       .dequeue (some "a"),
       .complete "/complete/x" { parses := true, status := none, err := none },
       .enqueue { id := some "y", agent := "b", model := "m", priority := some "low", payload := "p" } "f2",
       .cancelJobs (some "b")] initState zeroCounts).2.dequeued =
     (runC
      [.enqueue { id := some "x", agent := "a", model := "m", priority := some "low", payload := "p" } "f1",
       .dequeue (some "a"),
       .complete "/complete/x" { parses := true, status := none, err := none },
       .enqueue { id := some "y", agent := "b", model := "m", priority := some "low", payload := "p" } "f2",
       .cancelJobs (some "b")] initState zeroCounts).2.completed +
     (runC
      [.enqueue { id := some "x", agent := "a", model := "m", priority := some "low", payload := "p" } "f1",
       .dequeue (some "a"),
       .complete "/complete/x" { parses := true, status := none, err := none },
       .enqueue { id := some "y", agent := "b", model := "m", priority := some "low", payload := "p" } "f2",
       .cancelJobs (some "b")] initState zeroCounts).1.queue.snapshot.inflight.length) :=
  ⟨by decide, by decide,
    (claim_c9_conservation _ (by decide) (by decide)).2⟩
